import Mathlib

/-!
Shallow embedding of the affiliate-referral server (Express + MongoDB).
The repository carries several near-identical server variants; the two that
the verified routes come from are:
  * the fixed-URL variant (`server.js`, first document): `/api/signup` returns
    `affiliateLink = FRONTEND_SIGNUP_URL` (a constant), `/api/track/:code`
    records clicks, `/api/user/:walletAddress` aggregates stats;
  * the `?ref=` variant (`server.js`, second document): `/api/signup` builds
    `affiliateLink = FRONTEND_ORIGIN ++ "/signup?ref=" ++ code` and `/r/:code`
    records a click (insert failure caught internally) then 302-redirects.
The MongoDB store is modelled as explicit lists of rows; `User.create` is
modelled by `insertUser`, which applies the schema validation of
`models/User.js` (required fields, unique indexes on `walletAddress` and
`affiliateCode`).  The check-then-insert race window is modelled by giving
`signUp` two store snapshots: `checkStore`, read by the `findOne` calls, and
`insertStore`, the state at the moment of `User.create`; sequential runs take
the two snapshots equal.  `nanoid` (customAlphabet) is modelled by drawing
bytes from an explicit entropy source and reducing them modulo the alphabet
size; the unbounded retry loop is modelled with fuel, `none` standing for a
run that never leaves the loop (such a run persists nothing).
-/

namespace Affiliate

/-- JS `String.prototype.trim()`: strip leading and trailing whitespace. -/
def jsTrim (s : String) : String :=
  ⟨((s.data.dropWhile Char.isWhitespace).reverse.dropWhile Char.isWhitespace).reverse⟩

/-- JS `s.split(",")[0]`: the characters before the first comma (the whole
string when no comma occurs; the empty string stays empty). -/
def splitCommaHead (s : String) : String :=
  ⟨s.data.takeWhile fun c => !(c == ',')⟩

/-- Bytewise lexicographic string comparison, the order MongoDB sorts
string keys by (`$sort: { day: 1 }`). -/
def lexLe : List Char → List Char → Bool
  | [], _ => true
  | _ :: _, [] => false
  | a :: as, b :: bs =>
    if a < b then true
    else if b < a then false
    else lexLe as bs

/-- The nanoid customAlphabet from the source:
`customAlphabet("0123456789abcdefghijklmnopqrstuvwxyz", AFF_LEN)`. -/
def codeAlphabet : List Char := "0123456789abcdefghijklmnopqrstuvwxyz".data

/-- Source: `AFF_LEN = parseInt(process.env.AFF_LEN || "9", 10)` — default 9. -/
def AFF_LEN : Nat := 9

/-- One nanoid draw: `AFF_LEN` characters, each picked from `codeAlphabet`
by a byte of the entropy source reduced modulo the alphabet size. -/
def nanoidDraw (bytes : Nat → Nat) : String :=
  ⟨(List.range AFF_LEN).map fun i => codeAlphabet.getD (bytes i % codeAlphabet.length) '0'⟩

/-- Constants of the fixed-URL variant (`server.js`, first document). -/
def FRONTEND_ORIGIN : String := "https://cr7officialsol.com"

def FRONTEND_SIGNUP_PATH : String := "/signup"

def FRONTEND_SIGNUP_URL : String := FRONTEND_ORIGIN ++ FRONTEND_SIGNUP_PATH

/-- Frontend origin of the `?ref=` variant (`server.js`, second document). -/
def REF_FRONTEND_ORIGIN : String := "https://cr7react.vercel.app"

/-- A stored User row (`models/User.js` — userSchema).  `id` models the
Mongo `_id`; the remaining fields keep the schema names. -/
structure User where
  id : Nat
  name : String
  walletAddress : String
  affiliateCode : String
  affiliateLink : String
deriving DecidableEq

/-- A stored Click row (`models/Click.js` — clickSchema).  `createdAt` is the
ISO timestamp string added by `timestamps: true`. -/
structure Click where
  userId : Nat
  affiliateCode : String
  ip : String
  userAgent : String
  referrer : String
  createdAt : String
deriving DecidableEq

/-- The document store: the `users` and `clicks` collections. -/
structure Store where
  users : List User
  clicks : List Click
deriving DecidableEq

def emptyStore : Store := ⟨[], []⟩

/-- Outcome of `User.create` (mongoose): schema validation (required,
trimmed fields — callers pass pre-trimmed strings, as the routes do) runs
first, then the unique indexes on `walletAddress` and `affiliateCode` can
reject the insert with a duplicate-key error. -/
inductive InsertOutcome where
  | ok (u : User)
  | duplicateKey
  | validationError
deriving DecidableEq

/-- Model of `User.create({name, walletAddress, affiliateCode, affiliateLink})`
against the insert-time view of the collection. -/
def insertUser (view : List User) (id : Nat)
    (name walletAddress affiliateCode affiliateLink : String) : InsertOutcome :=
  if name = "" ∨ walletAddress = "" ∨ affiliateCode = "" ∨ affiliateLink = "" then
    .validationError
  else if view.any fun u => u.walletAddress == walletAddress || u.affiliateCode == affiliateCode then
    .duplicateKey
  else
    .ok ⟨id, name, walletAddress, affiliateCode, affiliateLink⟩

/-- The `while (true) { affiliateCode = nanoid(); dup = findOne; if (!dup) break }`
loop: draw after draw until no stored user carries the candidate code.
`entropy k` is the byte source of the `k`-th draw; `fuel` bounds the
unrolling, `none` standing for a run that never leaves the loop. -/
def genUniqueCode : Nat → (Nat → Nat → Nat) → List User → Option String
  | 0, _, _ => none
  | fuel + 1, entropy, users =>
    let affiliateCode := nanoidDraw (entropy 0)
    if users.any fun u => u.affiliateCode == affiliateCode then
      genUniqueCode fuel (fun k => entropy (k + 1)) users
    else
      some affiliateCode

/-- Result of `POST /api/signup` as seen by the client. -/
inductive SignupResult where
  /-- The `res.status(400).json({error: ...})` reply — missing name or wallet. -/
  | invalidInput
  /-- The `res.json({success: true, message: "Wallet already registered", user})` reply. -/
  | alreadyRegistered (user : User)
  /-- The `res.json({success: true, user})` reply for a freshly created user. -/
  | created (user : User)
  /-- The `res.status(500).json({error: "server error"})` reply of the catch handler. -/
  | serverError
deriving DecidableEq

/-- Route `POST /api/signup` of the fixed-URL variant (`server.js`, first document,
lines 75–119).  The existing-wallet branch returns a copy of the row with
`affiliateLink` overwritten to `FRONTEND_SIGNUP_URL`; a new row stores that
same constant as its link.  `checkStore` is the store seen by the `findOne`
calls, `insertStore` the store at the moment of `User.create` (equal in a
sequential run); any throw from `User.create` lands in the catch handler,
which answers 500. -/
def signUpFixed (checkStore insertStore : Store) (name walletAddress : String)
    (fuel : Nat) (entropy : Nat → Nat → Nat) : Option (SignupResult × Store) :=
  if name = "" ∨ walletAddress = "" then
    some (.invalidInput, insertStore)
  else
    match checkStore.users.find? (fun u => u.walletAddress == jsTrim walletAddress) with
    | some existing =>
      some (.alreadyRegistered { existing with affiliateLink := FRONTEND_SIGNUP_URL }, insertStore)
    | none =>
      match genUniqueCode fuel entropy checkStore.users with
      | none => none
      | some affiliateCode =>
        match insertUser insertStore.users insertStore.users.length
            (jsTrim name) (jsTrim walletAddress) affiliateCode FRONTEND_SIGNUP_URL with
        | .ok u => some (.created u, ⟨insertStore.users ++ [u], insertStore.clicks⟩)
        | _ => some (.serverError, insertStore)

/-- Route `POST /api/signup` of the `?ref=` variant (`server.js`, second document,
lines 303–346): the existing row is returned unchanged and a new row stores
`FRONTEND_ORIGIN ++ FRONTEND_SIGNUP_PATH ++ "?ref=" ++ affiliateCode`. -/
def signUpRef (checkStore insertStore : Store) (name walletAddress : String)
    (fuel : Nat) (entropy : Nat → Nat → Nat) : Option (SignupResult × Store) :=
  if name = "" ∨ walletAddress = "" then
    some (.invalidInput, insertStore)
  else
    match checkStore.users.find? (fun u => u.walletAddress == jsTrim walletAddress) with
    | some existing =>
      some (.alreadyRegistered existing, insertStore)
    | none =>
      match genUniqueCode fuel entropy checkStore.users with
      | none => none
      | some affiliateCode =>
        match insertUser insertStore.users insertStore.users.length
            (jsTrim name) (jsTrim walletAddress) affiliateCode
            (REF_FRONTEND_ORIGIN ++ FRONTEND_SIGNUP_PATH ++ "?ref=" ++ affiliateCode) with
        | .ok u => some (.created u, ⟨insertStore.users ++ [u], insertStore.clicks⟩)
        | _ => some (.serverError, insertStore)

/-- The request headers the click routes read.  A `none` field is a header
absent from the request (JS `undefined`). -/
structure ClickReq where
  xForwardedFor : Option String
  remoteAddress : Option String
  userAgent : Option String
  referer : Option String
  referrer : Option String
deriving DecidableEq

/-- JS `x || d` on a possibly-missing string: the default replaces both a
missing value and the empty (falsy) string. -/
def orFalsy (x : Option String) (d : String) : String :=
  match x with
  | some s => if s = "" then d else s
  | none => d

/-- Source: `(req.headers["x-forwarded-for"]?.split(",")[0] || req.socket.remoteAddress || "").toString()`. -/
def extractIp (r : ClickReq) : String :=
  orFalsy (r.xForwardedFor.map splitCommaHead) (orFalsy r.remoteAddress "")

/-- Source: `req.headers["user-agent"] || "unknown"`. -/
def extractUa (r : ClickReq) : String :=
  orFalsy r.userAgent "unknown"

/-- Source: `req.headers["referer"] || req.headers["referrer"] || "direct"`. -/
def extractReferrer (r : ClickReq) : String :=
  orFalsy r.referer (orFalsy r.referrer "direct")

/-- The Click document built by `Click.create({userId, affiliateCode, ip,
userAgent, referrer})`; `now` is the `createdAt` ISO timestamp that
`timestamps: true` stamps on the row. -/
def mkClick (userId : Nat) (affiliateCode : String) (r : ClickReq) (now : String) : Click :=
  ⟨userId, affiliateCode, extractIp r, extractUa r, extractReferrer r, now⟩

/-- Result of `GET /api/track/:code` as seen by the client. -/
inductive TrackResult where
  /-- The `res.status(404).json({success: false, message: "Invalid code"})` reply. -/
  | invalidCode
  /-- The `res.json({success: true, message: "Click recorded"})` reply. -/
  | recorded
deriving DecidableEq

/-- Route `GET /api/track/:code` (`server.js`, first document, lines 125–154):
look the user up by `affiliateCode`; answer 404 and store nothing when no
user matches, otherwise insert one Click row. -/
def recordClick (store : Store) (code : String) (r : ClickReq) (now : String) :
    TrackResult × Store :=
  match store.users.find? (fun u => u.affiliateCode == code) with
  | none => (.invalidCode, store)
  | some u => (.recorded, ⟨store.users, store.clicks ++ [mkClick u.id code r now]⟩)

/-- The visitor-visible response of `GET /r/:code`. -/
inductive RedirectResult where
  | redirect (status : Nat) (url : String)
deriving DecidableEq

/-- Route `GET /r/:code` of the `?ref=` variant (`server.js`, second document,
lines 417–474).  Unknown code: redirect with `?ref=` and store nothing.
Known code: `Click.create` runs inside its own try/catch — `insertOk` tells
whether the insert succeeded or threw (the catch only logs) — and the
handler then 302-redirects to the frontend signup URL carrying `?ref=`. -/
def rRoute (store : Store) (code : String) (r : ClickReq) (now : String)
    (insertOk : Bool) : RedirectResult × Store :=
  let url := REF_FRONTEND_ORIGIN ++ FRONTEND_SIGNUP_PATH ++ "?ref=" ++ code
  match store.users.find? (fun u => u.affiliateCode == code) with
  | none => (.redirect 302 url, store)
  | some u =>
    let store' : Store :=
      if insertOk then ⟨store.users, store.clicks ++ [mkClick u.id code r now]⟩ else store
    (.redirect 302 url, store')

/-- The clicks of one user: `{ $match: { userId: user._id } }`. -/
def clicksFor (store : Store) (userId : Nat) : List Click :=
  store.clicks.filter fun c => c.userId == userId

/-- The day bucket `{ $substr: ["$createdAt", 0, 10] }` of a click. -/
def dayOf (c : Click) : String :=
  ⟨c.createdAt.data.take 10⟩

/-- Source: `Click.countDocuments({ userId: user._id })`. -/
def totalClicksFor (store : Store) (userId : Nat) : Nat :=
  (clicksFor store userId).length

/-- The `$group: { _id: "$ip" }` / `$count` pipeline: one group per distinct
`ip` value, then the number of groups. -/
def uniqueClicksFor (store : Store) (userId : Nat) : Nat :=
  ((clicksFor store userId).map Click.ip).dedup.length

/-- The per-day pipeline: `$group` by the first 10 characters of
`createdAt` with `c: { $sum: 1 }`, then `$sort: { day: 1 }` — one entry per
distinct day, counted and sorted ascending. -/
def clicksByDayPipeline (cs : List Click) : List (String × Nat) :=
  ((List.insertionSort (fun a b : String => lexLe a.data b.data = true) (cs.map dayOf).dedup).map fun d =>
    (d, cs.countP fun c => dayOf c == d))

/-- The `stats` object of `GET /api/user/:walletAddress`. -/
structure Stats where
  totalClicks : Nat
  uniqueClicks : Nat
  clicksByDay : List (String × Nat)
deriving DecidableEq

def statsFor (store : Store) (userId : Nat) : Stats :=
  ⟨totalClicksFor store userId, uniqueClicksFor store userId,
    clicksByDayPipeline (clicksFor store userId)⟩

/-- The full response of `GET /api/user/:walletAddress`; `status` is the
HTTP status (`res.json` answers 200 on both branches). -/
structure StatsResponse where
  status : Nat
  success : Bool
  user : Option User
  stats : Stats
deriving DecidableEq

/-- Route `GET /api/user/:walletAddress` (`server.js`, first document, lines
159–202): trim the wallet, look the user up; when absent answer a plain 200
with `success: false`, a null user and zeroed stats, otherwise 200 with the
user and the three aggregations. -/
def getStats (store : Store) (walletParam : String) : StatsResponse :=
  match store.users.find? (fun u => u.walletAddress == jsTrim walletParam) with
  | none => ⟨200, false, none, ⟨0, 0, []⟩⟩
  | some u => ⟨200, true, some u, statsFor store u.id⟩

/-- Predicate: `link` embeds `code` when `code` occurs contiguously inside `link`
(as a path segment or query parameter, the spec's reading). -/
def embedsCode (link code : String) : Prop :=
  ∃ pre post : List Char, link.data = pre ++ code.data ++ post

/-- Executable substring check used to refute `embedsCode` on concrete data. -/
def strContains (hay needle : String) : Bool :=
  (List.range (hay.data.length + 1)).any fun i =>
    ((hay.data.drop i).take needle.data.length) == needle.data

/-! Concrete data for the witness runs: an entropy source that always
answers byte 0 (so every draw is `"000000000"`), one signed-up user, and a
store with three clicks from two IPs over two days. -/

def demoEntropy : Nat → Nat → Nat := fun _ _ => 0

def demoUser : User := ⟨0, "Alice", "0xABC", "000000000", FRONTEND_SIGNUP_URL⟩

def demoStore1 : Store := ⟨[demoUser], []⟩

def refDemoUser : User :=
  ⟨0, "Alice", "0xABC", "000000000",
    REF_FRONTEND_ORIGIN ++ FRONTEND_SIGNUP_PATH ++ "?ref=" ++ "000000000"⟩

def demoClick (ip day : String) : Click :=
  ⟨0, "000000000", ip, "agent", "direct", day ++ "T10:00:00.000Z"⟩

def demoClicksStore : Store :=
  ⟨[demoUser],
    [demoClick "1.1.1.1" "2024-01-02", demoClick "1.1.1.1" "2024-01-01",
      demoClick "2.2.2.2" "2024-01-01"]⟩

/-- Insert-time store of the duplicate-key race scenario: a concurrent
signup committed the same wallet between the existence check and the
insert. -/
def raceStore : Store := ⟨[⟨0, "Eve", "0xABC", "abcdefghi", FRONTEND_SIGNUP_URL⟩], []⟩

def demoReq : ClickReq := ⟨some "9.9.9.9, 8.8.8.8", some "7.7.7.7", some "agent", none, none⟩

/-- Entropy source whose `k`-th draw is the character at alphabet index `k`
repeated; draw 0 collides with `demoUser`, draw 1 gives `"111111111"`. -/
def demoEntropy2 : Nat → Nat → Nat := fun k _ => k

/-- The uniqueness invariant of the `affiliateCode` unique index: no two
stored Users share a referral code. -/
def codesNodup (users : List User) : Prop :=
  (users.map User.affiliateCode).Nodup

instance (users : List User) : Decidable (codesNodup users) :=
  inferInstanceAs (Decidable (users.map User.affiliateCode).Nodup)

/-! Helper lemmas about the lexicographic comparison. -/

lemma lexLe_total : ∀ as bs : List Char, lexLe as bs = true ∨ lexLe bs as = true
  | [], _ => Or.inl rfl
  | _ :: _, [] => Or.inr rfl
  | a :: as, b :: bs => by
    by_cases hab : a < b
    · exact Or.inl (by simp [lexLe, hab])
    · by_cases hba : b < a
      · exact Or.inr (by simp [lexLe, hba])
      · rcases lexLe_total as bs with h | h
        · exact Or.inl (by simp [lexLe, hab, hba, h])
        · exact Or.inr (by simp [lexLe, hab, hba, h])

lemma lexLe_trans : ∀ as bs cs : List Char,
    lexLe as bs = true → lexLe bs cs = true → lexLe as cs = true
  | [], _, _ => fun _ _ => rfl
  | _ :: _, [], _ => by simp [lexLe]
  | _ :: _, _ :: _, [] => by simp [lexLe]
  | a :: as, b :: bs, c :: cs => by
    intro h₁ h₂
    by_cases hab : a < b
    · by_cases hbc : b < c
      · simp [lexLe, lt_trans hab hbc]
      · by_cases hcb : c < b
        · simp [lexLe, hbc, hcb] at h₂
        · have : b = c := le_antisymm (not_lt.mp hcb) (not_lt.mp hbc)
          subst this
          simp [lexLe, hab]
    · by_cases hba : b < a
      · simp [lexLe, hab, hba] at h₁
      · have hEq : a = b := le_antisymm (not_lt.mp hba) (not_lt.mp hab)
        subst hEq
        simp only [lexLe, hab, if_neg hab, if_false] at h₁ ⊢
        by_cases hac : a < c
        · simp [hac]
        · by_cases hca : c < a
          · simp [lexLe, hac, hca] at h₂
          · simp only [lexLe, hac, hca, if_neg hac, if_neg hca, if_false] at h₂ ⊢
            exact lexLe_trans as bs cs (by simpa [lexLe, hab] using h₁) (by simpa [lexLe, hac, hca] using h₂)

lemma lexLe_ne_lex : ∀ as bs : List Char,
    lexLe as bs = true → as ≠ bs → List.Lex (· < ·) as bs
  | [], [] => fun _ hne => absurd rfl hne
  | [], _ :: _ => fun _ _ => List.Lex.nil
  | _ :: _, [] => by simp [lexLe]
  | a :: as, b :: bs => by
    intro h hne
    by_cases hab : a < b
    · exact List.Lex.rel hab
    · by_cases hba : b < a
      · simp [lexLe, hab, hba] at h
      · have hEq : a = b := le_antisymm (not_lt.mp hba) (not_lt.mp hab)
        subst hEq
        have h' : lexLe as bs = true := by simpa [lexLe, hab, hba] using h
        have hne' : as ≠ bs := fun hh => hne (by rw [hh])
        exact List.Lex.cons (lexLe_ne_lex as bs h' hne')

/-- Together, `lexLe` plus distinctness give the standard strict order on strings. -/
lemma lexLe_ne_lt {a b : String} (h : lexLe a.data b.data = true) (hne : a ≠ b) : a < b := by
  refine String.lt_iff_toList_lt.mpr ?_
  exact lexLe_ne_lex a.data b.data h (fun hd => hne (by cases a; cases b; simp only at hd; rw [hd]))

/-! Helper lemmas about code generation. -/

lemma getD_mem_of_lt {l : List Char} {n : Nat} {d : Char} (h : n < l.length) :
    l.getD n d ∈ l := by
  rw [List.getD_eq_getElem?_getD, List.getElem?_eq_getElem h, Option.getD_some]
  exact List.getElem_mem h

lemma nanoidDraw_length (bytes : Nat → Nat) : (nanoidDraw bytes).length = AFF_LEN := by
  simp [nanoidDraw, String.length]

lemma nanoidDraw_mem (bytes : Nat → Nat) :
    ∀ c ∈ (nanoidDraw bytes).data, c ∈ codeAlphabet := by
  intro c hc
  simp only [nanoidDraw, List.mem_map] at hc
  obtain ⟨i, _, rfl⟩ := hc
  exact getD_mem_of_lt (Nat.mod_lt _ (by decide))

lemma nanoidDraw_ne_empty (bytes : Nat → Nat) : nanoidDraw bytes ≠ "" := by
  intro h
  have := nanoidDraw_length bytes
  rw [h] at this
  simp [AFF_LEN, String.length] at this

lemma genUniqueCode_eq_draw :
    ∀ {fuel : Nat} {entropy : Nat → Nat → Nat} {users : List User} {code : String},
      genUniqueCode fuel entropy users = some code → ∃ bytes, code = nanoidDraw bytes := by
  intro fuel
  induction fuel with
  | zero => intro _ _ _ h; simp [genUniqueCode] at h
  | succ n ih =>
    intro entropy users code h
    simp only [genUniqueCode] at h
    split at h
    · exact ih h
    · exact ⟨entropy 0, (Option.some_inj.mp h).symm⟩

lemma genUniqueCode_fresh :
    ∀ {fuel : Nat} {entropy : Nat → Nat → Nat} {users : List User} {code : String},
      genUniqueCode fuel entropy users = some code → ∀ u ∈ users, u.affiliateCode ≠ code := by
  intro fuel
  induction fuel with
  | zero => intro _ _ _ h; simp [genUniqueCode] at h
  | succ n ih =>
    intro entropy users code h
    simp only [genUniqueCode] at h
    split at h
    · exact ih h
    · rename_i hany
      obtain rfl := Option.some_inj.mp h
      intro u hu
      have hfalse : (users.any fun u => u.affiliateCode == nanoidDraw (entropy 0)) = false := by
        simpa using hany
      have := List.any_eq_false.mp hfalse u hu
      simpa using this

lemma insertUser_ok {view : List User} {id : Nat} {n w c l : String} {u : User}
    (h : insertUser view id n w c l = .ok u) :
    u = ⟨id, n, w, c, l⟩ ∧ n ≠ "" ∧ w ≠ "" ∧ c ≠ "" ∧ l ≠ "" ∧
      ∀ v ∈ view, v.walletAddress ≠ w ∧ v.affiliateCode ≠ c := by
  unfold insertUser at h
  split at h
  · exact absurd h (by simp)
  · split at h
    · exact absurd h (by simp)
    · rename_i hvalid hdup
      refine ⟨(InsertOutcome.ok.injEq _ _).mp h.symm, ?_, ?_, ?_, ?_, ?_⟩
      · exact fun hn => hvalid (Or.inl hn)
      · exact fun hw => hvalid (Or.inr (Or.inl hw))
      · exact fun hc => hvalid (Or.inr (Or.inr (Or.inl hc)))
      · exact fun hl => hvalid (Or.inr (Or.inr (Or.inr hl)))
      · intro v hv
        have hfalse :
            (view.any fun u => u.walletAddress == w || u.affiliateCode == c) = false := by
          simpa using hdup
        have := List.any_eq_false.mp hfalse v hv
        constructor
        · intro hw
          simp [hw] at this
        · intro hc
          simp [hc] at this

/-! Helper lemma for the per-day sum. -/

lemma sum_map_count_of_nodup {α : Type} [DecidableEq α] :
    ∀ (keys : List α) (l : List α), keys.Nodup → (∀ x ∈ l, x ∈ keys) →
      (keys.map fun d => l.count d).sum = l.length := by
  intro keys
  induction keys with
  | nil =>
    intro l _ hcov
    have : l = [] := List.eq_nil_iff_forall_not_mem.mpr fun a ha => by simpa using hcov a ha
    simp [this]
  | cons k ks ih =>
    intro l hnd hcov
    obtain ⟨hk, hks⟩ := List.nodup_cons.mp hnd
    have hsplit : l.length = l.countP (fun a => a == k) + l.countP (fun a => !(a == k)) := by
      simpa using List.length_eq_countP_add_countP (fun a => a == k) l
    have hcount : l.count k = l.countP (fun a => a == k) := List.count_eq_countP k l
    have hrest :
        (ks.map fun d => l.count d) = ks.map fun d => (l.filter fun a => !(a == k)).count d := by
      refine List.map_congr_left fun d hd => ?_
      have hdk : d ≠ k := fun hh => hk (hh ▸ hd)
      rw [List.count_eq_countP, List.count_eq_countP, List.countP_filter]
      refine (List.countP_congr fun a _ => ?_).symm
      constructor
      · intro ha
        have : a = d := by
          have := (Bool.and_eq_true _ _).mp ha
          simpa using this.1
        simpa using this
      · intro ha
        have had : a = d := by simpa using ha
        subst had
        simp [hdk]
    have hcov' : ∀ x ∈ l.filter fun a => !(a == k), x ∈ ks := by
      intro x hx
      obtain ⟨hxl, hxk⟩ := List.mem_filter.mp hx
      have hxk' : x ≠ k := by simpa using hxk
      rcases List.mem_cons.mp (hcov x hxl) with h | h
      · exact absurd rfl (h ▸ hxk')
      · exact h
    have hlen : (l.filter fun a => !(a == k)).length = l.countP fun a => !(a == k) :=
      (List.countP_eq_length_filter _ l).symm
    calc ((k :: ks).map fun d => l.count d).sum
        = l.count k + (ks.map fun d => l.count d).sum := by simp
      _ = l.countP (fun a => a == k) + (l.filter fun a => !(a == k)).length := by
          rw [hcount, hrest, ih _ hks hcov']
      _ = l.length := by rw [hlen, ← hsplit]

/-! Characterizations of the signup runs. -/

lemma signUpFixed_created {checkStore insertStore : Store} {n w : String}
    {fuel : Nat} {entropy : Nat → Nat → Nat} {u : User} {s1 : Store}
    (h : signUpFixed checkStore insertStore n w fuel entropy = some (.created u, s1)) :
    n ≠ "" ∧ w ≠ "" ∧
      (∀ v ∈ checkStore.users, ¬(v.walletAddress == jsTrim w) = true) ∧
      genUniqueCode fuel entropy checkStore.users = some u.affiliateCode ∧
      u = ⟨insertStore.users.length, jsTrim n, jsTrim w, u.affiliateCode, FRONTEND_SIGNUP_URL⟩ ∧
      (∀ v ∈ insertStore.users, v.walletAddress ≠ jsTrim w ∧ v.affiliateCode ≠ u.affiliateCode) ∧
      s1 = ⟨insertStore.users ++ [u], insertStore.clicks⟩ := by
  unfold signUpFixed at h
  split at h
  · simp at h
  · rename_i hnw
    push_neg at hnw
    split at h
    · simp at h
    · rename_i hfind
      split at h
      · simp at h
      · rename_i code hgen
        split at h
        · rename_i u' hins
          simp only [Option.some_inj, Prod.mk.injEq, SignupResult.created.injEq] at h
          obtain ⟨rfl, rfl⟩ := h
          obtain ⟨hushape, hn1, hw1, hc1, hl1, hfresh⟩ := insertUser_ok hins
          have hcode : u'.affiliateCode = code := by rw [hushape]
          refine ⟨hnw.1, hnw.2, List.find?_eq_none.mp hfind, ?_, ?_, ?_, rfl⟩
          · rw [hcode]
            exact hgen
          · rw [hcode]
            exact hushape
          · intro v hv
            rw [hcode]
            exact hfresh v hv
        · rename_i hins
          exact absurd h (by simp)

lemma signUpRef_created {checkStore insertStore : Store} {n w : String}
    {fuel : Nat} {entropy : Nat → Nat → Nat} {u : User} {s1 : Store}
    (h : signUpRef checkStore insertStore n w fuel entropy = some (.created u, s1)) :
    n ≠ "" ∧ w ≠ "" ∧
      (∀ v ∈ checkStore.users, ¬(v.walletAddress == jsTrim w) = true) ∧
      genUniqueCode fuel entropy checkStore.users = some u.affiliateCode ∧
      u = ⟨insertStore.users.length, jsTrim n, jsTrim w, u.affiliateCode,
        REF_FRONTEND_ORIGIN ++ FRONTEND_SIGNUP_PATH ++ "?ref=" ++ u.affiliateCode⟩ ∧
      (∀ v ∈ insertStore.users, v.walletAddress ≠ jsTrim w ∧ v.affiliateCode ≠ u.affiliateCode) ∧
      s1 = ⟨insertStore.users ++ [u], insertStore.clicks⟩ := by
  unfold signUpRef at h
  split at h
  · simp at h
  · rename_i hnw
    push_neg at hnw
    split at h
    · simp at h
    · rename_i hfind
      split at h
      · simp at h
      · rename_i code hgen
        split at h
        · rename_i u' hins
          simp only [Option.some_inj, Prod.mk.injEq, SignupResult.created.injEq] at h
          obtain ⟨rfl, rfl⟩ := h
          obtain ⟨hushape, hn1, hw1, hc1, hl1, hfresh⟩ := insertUser_ok hins
          have hcode : u'.affiliateCode = code := by rw [hushape]
          refine ⟨hnw.1, hnw.2, List.find?_eq_none.mp hfind, ?_, ?_, ?_, rfl⟩
          · rw [hcode]
            exact hgen
          · rw [hcode]
            exact hushape
          · intro v hv
            rw [hcode]
            exact hfresh v hv
        · rename_i hins
          exact absurd h (by simp)

/-! Shape of the user collection after a signup run. -/

lemma codesNodup_append {users : List User} {u : User}
    (h : codesNodup users) (hf : ∀ v ∈ users, v.affiliateCode ≠ u.affiliateCode) :
    codesNodup (users ++ [u]) := by
  unfold codesNodup at h ⊢
  rw [List.map_append]
  refine List.nodup_append.mpr ⟨h, List.nodup_singleton _, ?_⟩
  intro x hx hx1
  obtain ⟨v, hv, rfl⟩ := List.mem_map.mp hx
  exact hf v hv (by simpa using hx1)

lemma signUpFixed_users_shape {checkStore insertStore : Store} {n w : String}
    {fuel : Nat} {entropy : Nat → Nat → Nat} {r : SignupResult} {s1 : Store}
    (h : signUpFixed checkStore insertStore n w fuel entropy = some (r, s1)) :
    s1.users = insertStore.users ∨
      ∃ u, s1.users = insertStore.users ++ [u] ∧
        ∀ v ∈ insertStore.users, v.affiliateCode ≠ u.affiliateCode := by
  unfold signUpFixed at h
  split at h
  · left
    obtain ⟨-, rfl⟩ := Prod.mk.injEq _ _ _ _ ▸ Option.some_inj.mp h
    rfl
  · split at h
    · left
      obtain ⟨-, rfl⟩ := Prod.mk.injEq _ _ _ _ ▸ Option.some_inj.mp h
      rfl
    · split at h
      · simp at h
      · split at h
        · rename_i u' hins
          right
          obtain ⟨-, rfl⟩ := Prod.mk.injEq _ _ _ _ ▸ Option.some_inj.mp h
          obtain ⟨hushape, -, -, -, -, hfresh⟩ := insertUser_ok hins
          refine ⟨u', rfl, fun v hv => ?_⟩
          rw [hushape]
          exact (hfresh v hv).2
        · left
          obtain ⟨-, rfl⟩ := Prod.mk.injEq _ _ _ _ ▸ Option.some_inj.mp h
          rfl

lemma signUpRef_users_shape {checkStore insertStore : Store} {n w : String}
    {fuel : Nat} {entropy : Nat → Nat → Nat} {r : SignupResult} {s1 : Store}
    (h : signUpRef checkStore insertStore n w fuel entropy = some (r, s1)) :
    s1.users = insertStore.users ∨
      ∃ u, s1.users = insertStore.users ++ [u] ∧
        ∀ v ∈ insertStore.users, v.affiliateCode ≠ u.affiliateCode := by
  unfold signUpRef at h
  split at h
  · left
    obtain ⟨-, rfl⟩ := Prod.mk.injEq _ _ _ _ ▸ Option.some_inj.mp h
    rfl
  · split at h
    · left
      obtain ⟨-, rfl⟩ := Prod.mk.injEq _ _ _ _ ▸ Option.some_inj.mp h
      rfl
    · split at h
      · simp at h
      · split at h
        · rename_i u' hins
          right
          obtain ⟨-, rfl⟩ := Prod.mk.injEq _ _ _ _ ▸ Option.some_inj.mp h
          obtain ⟨hushape, -, -, -, -, hfresh⟩ := insertUser_ok hins
          refine ⟨u', rfl, fun v hv => ?_⟩
          rw [hushape]
          exact (hfresh v hv).2
        · left
          obtain ⟨-, rfl⟩ := Prod.mk.injEq _ _ _ _ ▸ Option.some_inj.mp h
          rfl

/-- Claim C1: after a successful first signup for wallet `w`, a second
signup call with `w` (any non-empty name) creates no new User record, leaves
the store unchanged, and answers the already-registered response carrying
the very same User — in particular the same `affiliateCode` and the same
`affiliateLink` as the first call. -/
theorem signup_idempotent_per_wallet
    (store : Store) (n w n2 : String) (fuel fuel2 : Nat)
    (entropy entropy2 : Nat → Nat → Nat) (u : User) (s1 : Store)
    (h : signUpFixed store store n w fuel entropy = some (.created u, s1))
    (hn2 : n2 ≠ "") :
    signUpFixed s1 s1 n2 w fuel2 entropy2 = some (.alreadyRegistered u, s1) := by
  obtain ⟨hn, hw, hnone, hgen, hushape, hfresh, hs1⟩ := signUpFixed_created h
  have hwu : u.walletAddress = jsTrim w := by rw [hushape]
  have hlink : u.affiliateLink = FRONTEND_SIGNUP_URL := by rw [hushape]
  have hupdate : ({ u with affiliateLink := FRONTEND_SIGNUP_URL } : User) = u := by
    rw [← hlink]
  have husers : s1.users = store.users ++ [u] := by rw [hs1]
  have hfind : s1.users.find? (fun v => v.walletAddress == jsTrim w) = some u := by
    rw [husers, List.find?_append, List.find?_eq_none.mpr hnone, Option.none_or]
    simp [List.find?_cons, hwu]
  unfold signUpFixed
  rw [if_neg (by push_neg; exact ⟨hn2, hw⟩), hfind]
  simp only [hupdate]

theorem signup_idempotent_per_wallet_witness :
    signUpFixed demoStore1 demoStore1 "Bob" "0xABC" 1 demoEntropy
      = some (.alreadyRegistered demoUser, demoStore1) :=
  signup_idempotent_per_wallet emptyStore "Alice" "0xABC" "Bob" 1 1
    demoEntropy demoEntropy demoUser demoStore1 (by decide) (by decide)

/-- Claim C2: referral-code uniqueness is an invariant.  The code-generation
loop only ever hands out a code carried by no stored user, the insert path
appends only users whose code is fresh for the insert-time collection, and
the click/stats routes never touch the user collection — so if no two
stored Users share an `affiliateCode`, the same holds after any signup run
(either variant), any tracked click, and any redirect hit. -/
theorem referral_codes_unique :
    (∀ checkStore insertStore n w fuel entropy r s1,
       signUpFixed checkStore insertStore n w fuel entropy = some (r, s1) →
       codesNodup insertStore.users → codesNodup s1.users)
    ∧ (∀ checkStore insertStore n w fuel entropy r s1,
       signUpRef checkStore insertStore n w fuel entropy = some (r, s1) →
       codesNodup insertStore.users → codesNodup s1.users)
    ∧ (∀ store code r now, ((recordClick store code r now).2).users = store.users)
    ∧ (∀ store code r now insertOk, ((rRoute store code r now insertOk).2).users = store.users)
    ∧ (∀ fuel entropy users code, genUniqueCode fuel entropy users = some code →
       ∀ u ∈ users, u.affiliateCode ≠ code) := by
  refine ⟨?_, ?_, ?_, ?_, ?_⟩
  · intro checkStore insertStore n w fuel entropy r s1 h hnd
    rcases signUpFixed_users_shape h with hsame | ⟨u, happ, hfresh⟩
    · rw [hsame]; exact hnd
    · rw [happ]; exact codesNodup_append hnd hfresh
  · intro checkStore insertStore n w fuel entropy r s1 h hnd
    rcases signUpRef_users_shape h with hsame | ⟨u, happ, hfresh⟩
    · rw [hsame]; exact hnd
    · rw [happ]; exact codesNodup_append hnd hfresh
  · intro store code r now
    unfold recordClick
    cases hf : store.users.find? (fun u => u.affiliateCode == code) <;> simp [hf]
  · intro store code r now insertOk
    unfold rRoute
    cases hf : store.users.find? (fun u => u.affiliateCode == code) <;>
      cases insertOk <;> simp [hf]
  · intro fuel entropy users code h
    exact genUniqueCode_fresh h

theorem referral_codes_unique_witness :
    codesNodup (Store.users
      ⟨[demoUser, ⟨1, "Bob", "0xDEF", "111111111", FRONTEND_SIGNUP_URL⟩], []⟩) :=
  referral_codes_unique.1 demoStore1 demoStore1 "Bob" "0xDEF" 2 demoEntropy2
    (.created ⟨1, "Bob", "0xDEF", "111111111", FRONTEND_SIGNUP_URL⟩)
    ⟨[demoUser, ⟨1, "Bob", "0xDEF", "111111111", FRONTEND_SIGNUP_URL⟩], []⟩
    (by decide) (by decide)

/-- Claim C3: a click presented with a code that no stored User carries is
rejected and leaves the store untouched: `/api/track/:code` answers the
invalid-code response and stores nothing, and the `/r/:code` redirect stores
nothing either — in both cases the user and click collections are exactly
the ones before the call. -/
theorem unknown_code_records_nothing
    (store : Store) (code : String) (r : ClickReq) (now : String)
    (h : ∀ u ∈ store.users, u.affiliateCode ≠ code) :
    recordClick store code r now = (.invalidCode, store)
    ∧ ∀ insertOk, (rRoute store code r now insertOk).2 = store := by
  have hfind : store.users.find? (fun u => u.affiliateCode == code) = none :=
    List.find?_eq_none.mpr fun u hu => by simpa using h u hu
  constructor
  · unfold recordClick
    rw [hfind]
  · intro insertOk
    unfold rRoute
    rw [hfind]

theorem unknown_code_records_nothing_witness :
    recordClick demoStore1 "zzz" demoReq "2024-01-01T00:00:00.000Z"
      = (.invalidCode, demoStore1)
    ∧ ∀ insertOk,
        (rRoute demoStore1 "zzz" demoReq "2024-01-01T00:00:00.000Z" insertOk).2 = demoStore1 :=
  unknown_code_records_nothing demoStore1 "zzz" demoReq "2024-01-01T00:00:00.000Z" (by decide)

/-- Claim C6: a stats lookup for a wallet no stored User carries answers a
plain success-status response with the explicit not-found flag
(`success: false`), a null user and the zero stats object
`{totalClicks: 0, uniqueClicks: 0, clicksByDay: []}`; and no stats lookup
whatsoever answers an error status — the route always replies 200. -/
theorem stats_unknown_wallet_zero :
    (∀ store w, (∀ u ∈ store.users, u.walletAddress ≠ jsTrim w) →
       getStats store w = ⟨200, false, none, ⟨0, 0, []⟩⟩)
    ∧ (∀ store w, (getStats store w).status = 200) := by
  constructor
  · intro store w h
    have hfind : store.users.find? (fun u => u.walletAddress == jsTrim w) = none :=
      List.find?_eq_none.mpr fun u hu => by simpa using h u hu
    unfold getStats
    rw [hfind]
  · intro store w
    unfold getStats
    cases hf : store.users.find? (fun u => u.walletAddress == jsTrim w) <;> simp [hf]

theorem stats_unknown_wallet_zero_witness :
    getStats demoClicksStore "0xZZZ" = ⟨200, false, none, ⟨0, 0, []⟩⟩ :=
  stats_unknown_wallet_zero.1 demoClicksStore "0xZZZ" (by decide)

/-- Claim C10: on `/r/:code` with a known code, the visitor always gets the
302 redirect to the frontend signup URL carrying `?ref=` and the code — the
response is the same whether the click insert succeeds (`insertOk = true`,
one click appended) or throws into the inner catch (`insertOk = false`,
store unchanged); the insert outcome only ever affects the stored clicks. -/
theorem redirect_with_ref_regardless_of_insert
    (store : Store) (code : String) (r : ClickReq) (now : String) (u : User)
    (hfind : store.users.find? (fun v => v.affiliateCode == code) = some u) :
    (∀ insertOk, (rRoute store code r now insertOk).1
       = .redirect 302 (REF_FRONTEND_ORIGIN ++ FRONTEND_SIGNUP_PATH ++ "?ref=" ++ code))
    ∧ (rRoute store code r now false).2 = store
    ∧ (rRoute store code r now true).2
       = ⟨store.users, store.clicks ++ [mkClick u.id code r now]⟩ := by
  refine ⟨fun insertOk => ?_, ?_, ?_⟩
  · unfold rRoute
    rw [hfind]
  · unfold rRoute
    rw [hfind]
    rfl
  · unfold rRoute
    rw [hfind]
    rfl

theorem redirect_with_ref_regardless_of_insert_witness :
    (rRoute demoStore1 "000000000" demoReq "2024-01-01T00:00:00.000Z" false).1
      = .redirect 302 (REF_FRONTEND_ORIGIN ++ FRONTEND_SIGNUP_PATH ++ "?ref=" ++ "000000000") :=
  (redirect_with_ref_regardless_of_insert demoStore1 "000000000" demoReq
    "2024-01-01T00:00:00.000Z" demoUser (by decide)).1 false

/-- Claim C4: the `uniqueClicks` figure of the stats route is exactly the
number of distinct `ip` values among the user's stored clicks (an empty ip
string is one value like any other — the pipeline groups raw `ip` values
with no special-casing), and on the example store with clicks from IPs
`1.1.1.1, 1.1.1.1, 2.2.2.2` it is 2. -/
theorem unique_clicks_count_distinct_ips :
    (∀ store userId, (statsFor store userId).uniqueClicks
       = ((clicksFor store userId).map Click.ip).toFinset.card)
    ∧ (statsFor demoClicksStore 0).uniqueClicks = 2 := by
  constructor
  · intro store userId
    exact (List.card_toFinset _).symm
  · decide

/-- Claim C5: the `clicksByDay` list of the stats route has strictly
ascending day keys (so it is sorted with no duplicate days), every entry
counts exactly the user's clicks whose timestamp starts with that day and
is positive (days with no click are omitted), every stored click's day has
an entry, and the entry counts sum to `totalClicks`. -/
theorem clicks_by_day_correct (store : Store) (userId : Nat) :
    ((statsFor store userId).clicksByDay.Pairwise fun p q => p.1 < q.1)
    ∧ (∀ p ∈ (statsFor store userId).clicksByDay,
        p.2 = (clicksFor store userId).countP (fun c => dayOf c == p.1) ∧ 0 < p.2)
    ∧ (∀ c ∈ clicksFor store userId,
        ∃ p ∈ (statsFor store userId).clicksByDay, p.1 = dayOf c)
    ∧ ((statsFor store userId).clicksByDay.map Prod.snd).sum
        = (statsFor store userId).totalClicks := by
  have hstats : (statsFor store userId).clicksByDay
      = clicksByDayPipeline (clicksFor store userId) := rfl
  have htot : (statsFor store userId).totalClicks = (clicksFor store userId).length := rfl
  set cs := clicksFor store userId with hcs
  set days := List.insertionSort (fun a b : String => lexLe a.data b.data = true)
    (cs.map dayOf).dedup with hdays
  haveI : IsTotal String (fun a b : String => lexLe a.data b.data = true) :=
    ⟨fun a b => lexLe_total a.data b.data⟩
  haveI : IsTrans String (fun a b : String => lexLe a.data b.data = true) :=
    ⟨fun a b c => lexLe_trans a.data b.data c.data⟩
  have hsorted : days.Pairwise fun a b => lexLe a.data b.data = true :=
    List.sorted_insertionSort _ _
  have hnodup : days.Nodup :=
    ((List.perm_insertionSort _ _).nodup_iff).mpr (List.nodup_dedup _)
  have hpairlt : days.Pairwise fun a b : String => a < b :=
    (List.Pairwise.and hsorted hnodup).imp fun h => lexLe_ne_lt h.1 h.2
  refine ⟨?_, ?_, ?_, ?_⟩
  · rw [hstats]
    unfold clicksByDayPipeline
    rw [List.pairwise_map]
    exact hpairlt
  · intro p hp
    rw [hstats] at hp
    unfold clicksByDayPipeline at hp
    obtain ⟨d, hd, rfl⟩ := List.mem_map.mp hp
    refine ⟨rfl, ?_⟩
    have hdl : d ∈ cs.map dayOf :=
      List.mem_dedup.mp ((List.mem_insertionSort _).mp hd)
    obtain ⟨c, hc, hcd⟩ := List.mem_map.mp hdl
    exact List.countP_pos_iff.mpr ⟨c, hc, by simpa using hcd⟩
  · intro c hc
    rw [hstats]
    unfold clicksByDayPipeline
    refine ⟨(dayOf c, cs.countP fun x => dayOf x == dayOf c), ?_, rfl⟩
    refine List.mem_map.mpr ⟨dayOf c, ?_, rfl⟩
    exact (List.mem_insertionSort _).mpr
      (List.mem_dedup.mpr (List.mem_map_of_mem dayOf hc))
  · rw [hstats, htot]
    unfold clicksByDayPipeline
    rw [List.map_map]
    have hperm := List.Perm.map (fun d => cs.countP fun c => dayOf c == d)
      (List.perm_insertionSort (fun a b : String => lexLe a.data b.data = true)
        (cs.map dayOf).dedup)
    have hsum := hperm.sum_eq
    have hcomp : ((Prod.snd ∘ fun d => (d, cs.countP fun c => dayOf c == d))
        = fun d => cs.countP fun c => dayOf c == d) := rfl
    rw [hcomp, hsum]
    have hcount : ∀ d, (cs.countP fun c => dayOf c == d) = (cs.map dayOf).count d := by
      intro d
      rw [List.count_eq_countP, List.countP_map]
      rfl
    rw [List.map_congr_left fun d _ => hcount d]
    rw [sum_map_count_of_nodup (cs.map dayOf).dedup (cs.map dayOf) (List.nodup_dedup _)
      (fun x hx => List.mem_dedup.mpr hx)]
    exact List.length_map _ _

theorem clicks_by_day_correct_witness :
    (("2024-01-01", 2) : String × Nat).2
      = (clicksFor demoClicksStore 0).countP (fun c => dayOf c == (("2024-01-01", 2) : String × Nat).1)
    ∧ 0 < (("2024-01-01", 2) : String × Nat).2 :=
  (clicks_by_day_correct demoClicksStore 0).2.1 ("2024-01-01", 2) (by decide)

/-- A link that embeds a code contains it as a contiguous substring, so the
executable check accepts it. -/
lemma embedsCode_strContains {hay needle : String} (h : embedsCode hay needle) :
    strContains hay needle = true := by
  obtain ⟨pre, post, hsplit⟩ := h
  unfold strContains
  rw [List.any_eq_true]
  have h1 : hay.data = pre ++ (needle.data ++ post) := by
    rw [hsplit, List.append_assoc]
  refine ⟨pre.length, ?_, ?_⟩
  · rw [List.mem_range]
    have h2 : hay.data.length = pre.length + (needle.data.length + post.length) := by
      rw [h1, List.length_append, List.length_append]
    omega
  · rw [h1, List.drop_left]
    have h3 : (needle.data ++ post).take needle.data.length = needle.data := List.take_left _ _
    rw [h3]
    simp

/-- Claim C7 counterexample: the validation of `POST /api/signup` is JS
falsiness on the raw strings, not emptiness after trimming.  A whitespace-only
name is truthy, so the request is not rejected with the 400 InvalidInput
response even though its trimmed name is empty; the run instead reaches the
store, whose required-field validation throws, and the catch handler answers
the generic 500. -/
theorem signup_whitespace_not_invalid_input :
    jsTrim " " = ""
    ∧ signUpFixed emptyStore emptyStore " " "0xA" 1 demoEntropy
        = some (.serverError, emptyStore)
    ∧ signUpFixed emptyStore emptyStore " " "0xA" 1 demoEntropy
        ≠ some (.invalidInput, emptyStore) := by
  exact ⟨by decide, by decide, by decide⟩

/-- Claim C7 (amended): `POST /api/signup` (either variant) answers the 400
InvalidInput rejection — leaving the store unchanged and creating no User —
exactly when `name` or `walletAddress` is empty before trimming (JS falsy);
a whitespace-only value passes this check and proceeds to the store instead. -/
theorem signup_invalid_input_iff_empty_untrimmed
    (checkStore insertStore : Store) (n w : String) (fuel : Nat)
    (entropy : Nat → Nat → Nat) :
    (signUpFixed checkStore insertStore n w fuel entropy
        = some (.invalidInput, insertStore) ↔ (n = "" ∨ w = ""))
    ∧ (signUpRef checkStore insertStore n w fuel entropy
        = some (.invalidInput, insertStore) ↔ (n = "" ∨ w = "")) := by
  constructor
  · constructor
    · intro h
      by_contra hc
      unfold signUpFixed at h
      rw [if_neg hc] at h
      split at h
      · simp at h
      · split at h
        · simp at h
        · split at h
          · simp at h
          · simp at h
    · intro hor
      unfold signUpFixed
      rw [if_pos hor]
  · constructor
    · intro h
      by_contra hc
      unfold signUpRef at h
      rw [if_neg hc] at h
      split at h
      · simp at h
      · split at h
        · simp at h
        · split at h
          · simp at h
          · simp at h
    · intro hor
      unfold signUpRef
      rw [if_pos hor]

theorem signup_invalid_input_iff_empty_untrimmed_witness :
    signUpFixed demoStore1 demoStore1 "" "0xA" 1 demoEntropy
      = some (.invalidInput, demoStore1) :=
  (signup_invalid_input_iff_empty_untrimmed demoStore1 demoStore1 "" "0xA" 1
    demoEntropy).1.mpr (Or.inl rfl)

/-- Claim C8 counterexample: in the fixed-URL variant a successful first
signup returns a 9-character code, but the returned `affiliateLink` is the
constant frontend signup URL, which does not embed that code as a substring
(hence neither as a path segment nor as a query parameter). -/
theorem affiliate_link_embeds_code_counterexample :
    signUpFixed emptyStore emptyStore "Alice" "0xABC" 1 demoEntropy
      = some (.created demoUser, demoStore1)
    ∧ demoUser.affiliateCode.length = 9
    ∧ ¬ embedsCode demoUser.affiliateLink demoUser.affiliateCode := by
  refine ⟨by decide, by decide, fun h => absurd (embedsCode_strContains h) (by decide)⟩

/-- Claim C8 (amended): every successfully created User carries an
`affiliateCode` of exactly `AFF_LEN = 9` characters drawn from the lowercase
alphanumeric nanoid alphabet, and a fully-qualified `affiliateLink` stored
verbatim at creation; in the `?ref=` variant that link is the frontend
signup URL with the code embedded as the `?ref=` query parameter, while in
the fixed-URL variant it is the constant frontend signup URL, which embeds
no code. -/
theorem affiliate_code_shape_and_link
    (checkStore insertStore : Store) (n w : String) (fuel : Nat)
    (entropy : Nat → Nat → Nat) (u : User) (s1 : Store) :
    (signUpFixed checkStore insertStore n w fuel entropy = some (.created u, s1) →
       u.affiliateCode.length = AFF_LEN
       ∧ (∀ ch ∈ u.affiliateCode.data, ch ∈ codeAlphabet)
       ∧ u.affiliateLink = FRONTEND_SIGNUP_URL)
    ∧ (signUpRef checkStore insertStore n w fuel entropy = some (.created u, s1) →
       u.affiliateCode.length = AFF_LEN
       ∧ (∀ ch ∈ u.affiliateCode.data, ch ∈ codeAlphabet)
       ∧ u.affiliateLink
           = REF_FRONTEND_ORIGIN ++ FRONTEND_SIGNUP_PATH ++ "?ref=" ++ u.affiliateCode
       ∧ embedsCode u.affiliateLink u.affiliateCode) := by
  constructor
  · intro h
    obtain ⟨-, -, -, hgen, hushape, -, -⟩ := signUpFixed_created h
    obtain ⟨bytes, hdraw⟩ := genUniqueCode_eq_draw hgen
    refine ⟨hdraw ▸ nanoidDraw_length bytes, hdraw ▸ nanoidDraw_mem bytes, by rw [hushape]⟩
  · intro h
    obtain ⟨-, -, -, hgen, hushape, -, -⟩ := signUpRef_created h
    obtain ⟨bytes, hdraw⟩ := genUniqueCode_eq_draw hgen
    have hlink : u.affiliateLink
        = REF_FRONTEND_ORIGIN ++ FRONTEND_SIGNUP_PATH ++ "?ref=" ++ u.affiliateCode := by
      rw [hushape]
    refine ⟨hdraw ▸ nanoidDraw_length bytes, hdraw ▸ nanoidDraw_mem bytes, hlink, ?_⟩
    refine ⟨(REF_FRONTEND_ORIGIN ++ FRONTEND_SIGNUP_PATH ++ "?ref=").data, [], ?_⟩
    rw [hlink]
    simp [String.data_append]

theorem affiliate_code_shape_and_link_witness :
    refDemoUser.affiliateCode.length = AFF_LEN
    ∧ refDemoUser.affiliateLink
        = REF_FRONTEND_ORIGIN ++ FRONTEND_SIGNUP_PATH ++ "?ref=" ++ refDemoUser.affiliateCode :=
  ⟨((affiliate_code_shape_and_link emptyStore emptyStore "Alice" "0xABC" 1 demoEntropy
      refDemoUser ⟨[refDemoUser], []⟩).2 (by decide)).1,
   ((affiliate_code_shape_and_link emptyStore emptyStore "Alice" "0xABC" 1 demoEntropy
      refDemoUser ⟨[refDemoUser], []⟩).2 (by decide)).2.2.1⟩

/-- Claim C9 counterexample: when the insert hits the unique-index violation
on `walletAddress` (a concurrent signup committed the same new wallet
between the existence check and `User.create`), the route does not re-fetch
and return the existing row — the thrown duplicate-key error lands in the
catch-all handler and is surfaced to the caller as the generic 500 server
error. -/
theorem duplicate_key_surfaced_counterexample :
    signUpFixed emptyStore raceStore "Alice" "0xABC" 1 demoEntropy
      = some (.serverError, raceStore)
    ∧ signUpFixed emptyStore raceStore "Alice" "0xABC" 1 demoEntropy
        ≠ some (.alreadyRegistered ⟨0, "Eve", "0xABC", "abcdefghi", FRONTEND_SIGNUP_URL⟩,
            raceStore) := by
  exact ⟨by decide, by decide⟩

/-- Claim C9 (amended): when the insert of `POST /api/signup` fails with the
duplicate-key violation, the route surfaces the generic 500 server-error
response (the catch-all handler) and leaves the store unchanged; it never
re-fetches the existing row. -/
theorem duplicate_key_returns_server_error
    (checkStore insertStore : Store) (n w code : String) (fuel : Nat)
    (entropy : Nat → Nat → Nat)
    (hn : n ≠ "") (hw : w ≠ "")
    (hnone : ∀ v ∈ checkStore.users, v.walletAddress ≠ jsTrim w)
    (hgen : genUniqueCode fuel entropy checkStore.users = some code)
    (hdup : insertUser insertStore.users insertStore.users.length
        (jsTrim n) (jsTrim w) code FRONTEND_SIGNUP_URL = .duplicateKey) :
    signUpFixed checkStore insertStore n w fuel entropy
      = some (.serverError, insertStore) := by
  unfold signUpFixed
  rw [if_neg (by push_neg; exact ⟨hn, hw⟩)]
  rw [List.find?_eq_none.mpr fun v hv => by simpa using hnone v hv]
  rw [hgen]
  simp only [hdup]

theorem duplicate_key_returns_server_error_witness :
    signUpFixed emptyStore demoStore1 "Bob" "0xABC" 1 demoEntropy
      = some (.serverError, demoStore1) :=
  duplicate_key_returns_server_error emptyStore demoStore1 "Bob" "0xABC"
    "000000000" 1 demoEntropy (by decide) (by decide) (by decide) (by decide) (by decide)

end Affiliate
